import Mathlib

/-!
Shallow embedding of the core of the `ai_investment_tracker` repository
(tabular import parser, identifier filtering, position ledger, snapshot
aggregator, alternative-symbol builder), translated from the JavaScript
sources, together with theorems settling the specification claims.

JavaScript `number` values are modelled as exact rationals (`ℚ`); `NaN`
outcomes of parsing are modelled with `Option ℚ`.  JavaScript objects
used as string-keyed maps are modelled as association lists whose keys
are unique (`Nodup` hypotheses where the key-count matters).
-/

namespace AIT

/-! ### Character/string helpers shared by the embedded functions -/

def isUpperAlpha (c : Char) : Bool := 'A' ≤ c && c ≤ 'Z'

def isLowerAlpha (c : Char) : Bool := 'a' ≤ c && c ≤ 'z'

def isDigitCh (c : Char) : Bool := '0' ≤ c && c ≤ '9'

def isUpperAlnum (c : Char) : Bool := isUpperAlpha c || isDigitCh c

/-- JS whitespace as relevant to `String.prototype.trim` on the ASCII
    inputs of this code base: space, tab, newline, carriage return,
    form feed, vertical tab. -/
def isWsCh (c : Char) : Bool :=
  c = ' ' || c = '\t' || c = '\n' || c = '\r' || c = '\x0c' || c = '\x0b'

/-- `String.prototype.trim()`. -/
def jsTrim (s : String) : String :=
  ⟨((s.data.dropWhile isWsCh).reverse.dropWhile isWsCh).reverse⟩

/-- ASCII-range `String.prototype.toUpperCase()` (the identifiers handled
    by this code base are ASCII). -/
def upperCh (c : Char) : Char :=
  if isLowerAlpha c then Char.ofNat (c.toNat - 32) else c

def jsToUpper (s : String) : String := ⟨s.data.map upperCh⟩

/-- ASCII-range `String.prototype.toLowerCase()`. -/
def lowerCh (c : Char) : Char :=
  if isUpperAlpha c then Char.ofNat (c.toNat + 32) else c

def jsToLower (s : String) : String := ⟨s.data.map lowerCh⟩

/-- `text.split(sep)` for a single-character separator. -/
def splitChAux (sep : Char) : List Char → List Char → List String
  | [], acc => [⟨acc.reverse⟩]
  | c :: cs, acc =>
    if c = sep then ⟨acc.reverse⟩ :: splitChAux sep cs []
    else splitChAux sep cs (c :: acc)

def splitCh (sep : Char) (s : String) : List String :=
  splitChAux sep s.data []

/-- `isISIN` from `src/services/storage.js`:
    `/^[A-Z]{2}[A-Z0-9]{10}$/.test(value)`. -/
def isISIN (value : String) : Bool :=
  value.data.length = 12 &&
    (value.data.take 2).all isUpperAlpha &&
    (value.data.drop 2).all isUpperAlnum

/-! ### Snapshot aggregator (`src/services/storage.js`)

A `Snapshot`'s `timestamp` is modelled as the epoch-milliseconds value of
the stored ISO string (`Date.parse`), so that deduplication by string
equality and sorting by `new Date(a.timestamp) - new Date(b.timestamp)`
use the same key. -/

structure Snapshot where
  timestamp : ℕ
  totalInvested : ℚ
  totalMarketValue : ℚ
  positionCount : ℕ
  pricesAvailable : ℕ
deriving DecidableEq, Repr

/-- The ascending-timestamp comparison used by
    `merged.sort((a, b) => new Date(a.timestamp) - new Date(b.timestamp))`. -/
def snapLE (a b : Snapshot) : Bool := a.timestamp ≤ b.timestamp

/-- The `incoming.forEach` loop of `mergeSnapshots`: walk `incoming` in
    order, keeping a snapshot only when its timestamp is not in the
    `timestamps` set, and adding each kept timestamp to the set. -/
def addIncoming : List Snapshot → List ℕ → List Snapshot
  | [], _ => []
  | s :: rest, seen =>
    if s.timestamp ∈ seen then addIncoming rest seen
    else s :: addIncoming rest (s.timestamp :: seen)

/-- `mergeSnapshots(existing, incoming)` from `src/services/storage.js`:
    seed the seen-set with the timestamps of `existing`, copy `existing`,
    append the unseen members of `incoming`, then stable-sort ascending
    by timestamp (JS `Array.prototype.sort` is stable). -/
def mergeSnapshots (existing incoming : List Snapshot) : List Snapshot :=
  let timestamps := existing.map (·.timestamp)
  let merged := existing ++ addIncoming incoming timestamps
  merged.mergeSort snapLE

/-! ### Portfolio totals and snapshot creation (`src/services/storage.js`) -/

structure Position where
  name : String
  symbol : String
  platform : String
  type : String
  shares : ℚ
  avgPrice : ℚ
deriving DecidableEq, Repr

/-- A JS object `{ symbol: price }`; keys are unique in a JS object. -/
abbrev PriceMap := List (String × ℚ)

/-- `marketPrices[p.symbol]`: `some v` when the key is present. -/
def lookupPrice (m : PriceMap) (sym : String) : Option ℚ :=
  (m.find? (fun kv => kv.1 = sym)).map (·.2)

/-- JS truthiness of `marketPrices[p.symbol]` as used in
    `if (currentPrice)`: the key must be present with a nonzero value
    (`NaN`, the other falsy number, is outside the rational model). -/
def truthyPrice (m : PriceMap) (sym : String) : Option ℚ :=
  match lookupPrice m sym with
  | some v => if v = 0 then none else some v
  | none => none

structure Totals where
  totalInvested : ℚ
  totalMarketValue : ℚ
  positionsWithPrices : ℕ
  gainLoss : ℚ
  gainLossPct : ℚ
deriving DecidableEq, Repr

/-- One iteration of the `portfolio.forEach` accumulation shared by
    `calculatePortfolioTotals` and `buildSnapshot`: running
    `(totalInvested, totalMarketValue, positionsWithPrices)`. -/
def totalsStep (marketPrices : PriceMap) (acc : ℚ × ℚ × ℕ) (p : Position) : ℚ × ℚ × ℕ :=
  let invested := p.shares * p.avgPrice
  match truthyPrice marketPrices p.symbol with
  | some currentPrice => (acc.1 + invested, acc.2.1 + p.shares * currentPrice, acc.2.2 + 1)
  | none => (acc.1 + invested, acc.2.1 + invested, acc.2.2)

/-- `calculatePortfolioTotals(portfolio, marketPrices)` from
    `src/services/storage.js`. -/
def calculatePortfolioTotals (portfolio : List Position) (marketPrices : PriceMap) : Totals :=
  let r := portfolio.foldl (totalsStep marketPrices) (0, 0, 0)
  let gainLoss := r.2.1 - r.1
  { totalInvested := r.1
    totalMarketValue := r.2.1
    positionsWithPrices := r.2.2
    gainLoss := gainLoss
    gainLossPct := if 0 < r.1 then gainLoss / r.1 * 100 else 0 }

/-- `buildSnapshot(portfolio, marketPrices, timestamp)` from
    `src/services/storage.js`; `pricesAvailable` is
    `Object.keys(marketPrices).length`. -/
def buildSnapshot (portfolio : List Position) (marketPrices : PriceMap)
    (timestamp : ℕ) : Snapshot :=
  let r := portfolio.foldl (totalsStep marketPrices) (0, 0, 0)
  { timestamp := timestamp
    totalInvested := r.1
    totalMarketValue := r.2.1
    positionCount := portfolio.length
    pricesAvailable := marketPrices.length }

/-- Per-position market value with the cost-basis fallback, used to state
    what the accumulation computes. -/
def marketValueOf (m : PriceMap) (p : Position) : ℚ :=
  match truthyPrice m p.symbol with
  | some currentPrice => p.shares * currentPrice
  | none => p.shares * p.avgPrice

/-- Per-position invested amount `shares * avgPrice`. -/
def investedOf (p : Position) : ℚ := p.shares * p.avgPrice

/-- Whether a position is counted in `positionsWithPrices`. -/
def hasTruthyPrice (m : PriceMap) (p : Position) : Bool :=
  (truthyPrice m p.symbol).isSome

/-! ### Position ledger (`submitPosition` / `recordTransaction`,
`src/unnamed/part_006`)

`submitPosition` reads the dialog fields, validates them, then mutates
`state.portfolio` and `state.transactions` according to the dialog mode.
The mutation is modelled as a pure function from the ledger state to
`Except error newState`; an `alert(...); return;` in the source is an
`Except.error` here (the state is untouched).  Persistence calls,
re-rendering, the asset-database record built on `add`, and the deferred
auto price fetch touch neither the position list nor the transaction
log and are outside the ledger model. -/

inductive TxType
  | buy
  | sell
deriving DecidableEq, Repr

structure Tx where
  type : TxType
  shares : ℚ
  price : ℚ
  date : String
  totalAmount : ℚ
  currency : String
  exchangeRate : ℚ
  timestamp : String
  costBasis : Option ℚ
  realizedGainLoss : Option ℚ
deriving DecidableEq, Repr

/-- `state.portfolio` together with `state.transactions`
    (a JS object keyed by symbol, modelled as an association list in key
    insertion order). -/
structure Ledger where
  portfolio : List Position
  transactions : List (String × List Tx)
deriving DecidableEq, Repr

/-- Ambient values read while recording a transaction:
    `getAssetCurrency(symbol)`, `getExchangeRate(currency)` and
    `new Date().toISOString()`. -/
structure Env where
  assetCurrency : String → String
  exchangeRate : String → ℚ
  now : String

/-- `state.transactions[symbol]` creation plus `push(tx)`: append `tx` to
    the symbol's list, creating the key at the end when it is missing. -/
def pushTx : List (String × List Tx) → String → Tx → List (String × List Tx)
  | [], sym, tx => [(sym, [tx])]
  | (s, l) :: rest, sym, tx =>
    if s = sym then (s, l ++ [tx]) :: rest else (s, l) :: pushTx rest sym tx

/-- `recordTransaction(symbol, type, shares, price, date, totalAmount,
    costBasis, realizedGainLoss)` from `src/unnamed/part_006`; the
    `costBasis`/`realizedGainLoss` fields are attached only on sells. -/
def recordTransaction (env : Env) (transactions : List (String × List Tx))
    (symbol : String) (type : TxType) (shares price : ℚ) (date : String)
    (totalAmount : ℚ) (costBasis realizedGainLoss : Option ℚ) :
    List (String × List Tx) :=
  let currency := env.assetCurrency symbol
  let tx : Tx :=
    { type := type
      shares := shares
      price := price
      date := date
      totalAmount := totalAmount
      currency := currency
      exchangeRate := env.exchangeRate currency
      timestamp := env.now
      costBasis := if type = TxType.sell then costBasis else none
      realizedGainLoss := if type = TxType.sell then realizedGainLoss else none }
  pushTx transactions symbol tx

/-- In-place mutation of the position returned by
    `state.portfolio.find(...)`: rewrite the first matching element. -/
def updateFirst (pred : Position → Bool) (f : Position → Position) :
    List Position → List Position
  | [] => []
  | p :: ps => if pred p then f p :: ps else p :: updateFirst pred f ps

inductive Mode
  | add
  | buy
  | sell
deriving DecidableEq, Repr

/-- The dialog fields read at the top of `submitPosition`.
    `dialogSymbol` is `dialog.dataset.symbol` (used by the buy/sell
    modes to locate the position); `symbol`..`date` are the form inputs.
    `shares`/`totalAmount` are the `parseFloat` results (the `NaN` case
    is subsumed by the `<= 0` validation in this exact-number model). -/
structure PositionForm where
  dialogSymbol : String
  symbol : String
  name : String
  type : String
  platform : String
  shares : ℚ
  totalAmount : ℚ
  date : String

/-- The sell-validation message
    ``Cannot sell ${shares} shares. You only have ${position.shares} shares.`` -/
def sellErrMsg (requested available : ℚ) : String :=
  "Cannot sell " ++ toString requested ++ " shares. You only have " ++
    toString available ++ " shares."

/-- The duplicate-active-add message. -/
def activeExistsMsg (symbol : String) : String :=
  "An active position for " ++ symbol ++ " already exists.\nUse the \"+\" button on that row to add more shares."

/-- `submitPosition()` from `src/unnamed/part_006`, as a pure function of
    the dialog mode, the form fields and the ledger state. -/
def submitPosition (env : Env) (mode : Mode) (form : PositionForm)
    (st : Ledger) : Except String Ledger :=
  let symbol := jsToUpper (jsTrim form.symbol)
  let name := jsTrim form.name
  let type := form.type
  let platform := if jsTrim form.platform = "" then "Unknown" else jsTrim form.platform
  let shares := form.shares
  let totalAmount := form.totalAmount
  let date := form.date
  if symbol = "" then .error "Please enter or select a ticker symbol."
  else if isISIN symbol then
    .error "Please enter a ticker symbol, not an ISIN.\n\nUse the import function to resolve ISINs automatically."
  else if shares ≤ 0 then .error "Please enter a valid number of shares."
  else if totalAmount ≤ 0 then .error "Please enter a valid amount."
  else if date = "" then .error "Please enter a date."
  else
    let pricePerShare := totalAmount / shares
    match mode with
    | .add =>
      match st.portfolio.find? (fun p => p.symbol = symbol) with
      | some existing =>
        if existing.shares > 0 then
          .error (activeExistsMsg symbol)
        else
          let portfolio := updateFirst (fun p => p.symbol = symbol)
            (fun p =>
              { p with
                shares := shares
                avgPrice := pricePerShare
                name := if name = "" then p.name else name
                type := type
                platform := platform }) st.portfolio
          .ok { portfolio := portfolio
                transactions := recordTransaction env st.transactions symbol
                  .buy shares pricePerShare date totalAmount none none }
      | none =>
        let newPos : Position :=
          { name := if name = "" then symbol else name
            symbol := symbol
            platform := platform
            type := type
            shares := shares
            avgPrice := pricePerShare }
        .ok { portfolio := st.portfolio ++ [newPos]
              transactions := recordTransaction env st.transactions symbol
                .buy shares pricePerShare date totalAmount none none }
    | .buy =>
      match st.portfolio.find? (fun p => p.symbol = form.dialogSymbol) with
      | none => .error "Position not found."
      | some position =>
        let oldTotal := position.shares * position.avgPrice
        let newTotal := shares * pricePerShare
        let newShares := position.shares + shares
        let portfolio := updateFirst (fun p => p.symbol = form.dialogSymbol)
          (fun p =>
            { p with
              shares := newShares
              avgPrice := (oldTotal + newTotal) / newShares }) st.portfolio
        .ok { portfolio := portfolio
              transactions := recordTransaction env st.transactions position.symbol
                .buy shares pricePerShare date totalAmount none none }
    | .sell =>
      match st.portfolio.find? (fun p => p.symbol = form.dialogSymbol) with
      | none => .error "Position not found."
      | some position =>
        if position.shares < shares then
          .error (sellErrMsg shares position.shares)
        else
          let costBasis := position.avgPrice
          let realizedGainLoss := (pricePerShare - costBasis) * shares
          let transactions := recordTransaction env st.transactions position.symbol
            .sell shares pricePerShare date totalAmount (some costBasis) (some realizedGainLoss)
          let portfolio := updateFirst (fun p => p.symbol = form.dialogSymbol)
            (fun p => { p with shares := p.shares - shares }) st.portfolio
          .ok { portfolio := portfolio, transactions := transactions }

/-- One user action against the dialog. -/
structure Op where
  mode : Mode
  form : PositionForm

/-- Running one operation: on a validation error the source returns
    before touching the state, so the ledger is kept as-is. -/
def applyOp (env : Env) (st : Ledger) (op : Op) : Ledger :=
  match submitPosition env op.mode op.form st with
  | .ok st' => st'
  | .error _ => st

/-- Running a sequence of add/buy/sell operations. -/
def runOps (env : Env) (st : Ledger) (ops : List Op) : Ledger :=
  ops.foldl (applyOp env) st

/-- `state.transactions[symbol] || []`: the transaction log of a symbol. -/
def lookupTxs (t : List (String × List Tx)) (sym : String) : List Tx :=
  ((t.find? (fun kv => kv.1 = sym)).map (·.2)).getD []

/-! ### Concrete fixtures used by the witness theorems -/

def envW : Env := ⟨fun _ => "USD", fun _ => 1, "2024-05-01T00:00:00Z"⟩

def posW : Position := ⟨"Apple", "AAPL", "Broker", "Stock", 5, 100⟩

def stW : Ledger := ⟨[posW], []⟩

def sellFormW (sh amt : ℚ) : PositionForm :=
  ⟨"AAPL", "AAPL", "", "Stock", "", sh, amt, "2024-05-02"⟩

def posInactiveW : Position := ⟨"Acme Corp", "ACME", "Degiro", "ETF", 0, 50⟩

def stInactiveW : Ledger := ⟨[posInactiveW], []⟩

/-- A reactivating `add` with name and platform inputs left blank. -/
def addFormBlankW : PositionForm := ⟨"", "ACME", "", "Stock", "", 4, 200, "2024-05-03"⟩

/-! ### Alternative-symbol builder (`buildAlternativeSymbols`,
`src/services/storage.js` and `src/src/portfolio.js`, identical) -/

/-- Prefix test on character lists. -/
def strPrefix : List Char → List Char → Bool
  | [], _ => true
  | _ :: _, [] => false
  | a :: as, b :: bs => a = b && strPrefix as bs

/-- `haystack.includes(needle)` (substring test). -/
def strInfix (needle : List Char) : List Char → Bool
  | [] => strPrefix needle []
  | c :: rest => strPrefix needle (c :: rest) || strInfix needle rest

/-- `[...new Set(list)]`: deduplicate keeping the first occurrence, in
    order. -/
def dedupFirst : List String → List String → List String
  | [], _ => []
  | x :: xs, seen =>
    if x ∈ seen then dedupFirst xs seen else x :: dedupFirst xs (x :: seen)

/-- `smartMappings` from `buildAlternativeSymbols`, in source order. -/
def smartMappings : List (String × List String) :=
  [("cellnex", ["CLNX", "CLNX.MC"]),
   ("covestro", ["1COV.DE", "COV.DE"]),
   ("prosus", ["PRX.AS", "PROSUS"]),
   ("adyen", ["ADYEN.AS", "ADYEY"]),
   ("just eat", ["JET.L", "TKWY.AS"]),
   ("moncler", ["MONC.MI", "MONRF"]),
   ("sartorius", ["SRT.DE", "SRT3.DE"]),
   ("nestle", ["NESN.SW", "NSRGY"]),
   ("roche", ["ROG.SW", "RHHBY"]),
   ("novartis", ["NOVN.SW", "NVS"]),
   ("asml", ["ASML.AS", "ASML"]),
   ("lvmh", ["MC.PA", "LVMUY"]),
   ("hermes", ["RMS.PA", "HESAY"]),
   ("schneider", ["SU.PA", "SBGSF"]),
   ("totalenergies", ["TTE.PA", "TTE"]),
   ("airbus", ["AIR.PA", "EADSY"])]

/-- The `for..of` over `Object.entries(smartMappings)` with `break` on
    the first key contained in the lowercased name. -/
def smartLookup : List (String × List String) → String → List String
  | [], _ => []
  | (key, tickers) :: rest, nameLower =>
    if strInfix key.data nameLower.data then tickers
    else smartLookup rest nameLower

/-- The corporate-suffix alternation of
    `assetName.split(/\s+(SA|NV|AG|SE|PLC|INC|CORP|LTD|SPA|ASA|OYJ)/i)`. -/
def corpSuffixes : List String :=
  ["SA", "NV", "AG", "SE", "PLC", "INC", "CORP", "LTD", "SPA", "ASA", "OYJ"]

/-- Whether the regex `\s+(SA|NV|...)` (case-insensitive) matches at the
    head of the character list: one or more whitespace characters
    followed by one of the alternatives. -/
def wsAltMatchHere (l : List Char) : Bool :=
  match l with
  | [] => false
  | c :: cs =>
    isWsCh c &&
      corpSuffixes.any (fun a => strPrefix a.data ((cs.dropWhile isWsCh).map upperCh))

/-- `assetName.split(/\s+(...)/i)[0]`: the part before the leftmost
    match, or the whole string if the regex never matches. -/
def splitCompanyAux : List Char → List Char → List Char
  | [], acc => acc.reverse
  | c :: cs, acc =>
    if wsAltMatchHere (c :: cs) then acc.reverse
    else splitCompanyAux cs (c :: acc)

/-- `buildAlternativeSymbols(originalSymbol, assetName)` from
    `src/services/storage.js` (identical in `src/src/portfolio.js`); a
    missing `assetName` is the empty string (falsy). -/
def buildAlternativeSymbols (originalSymbol assetName : String) : List String :=
  let alternatives :=
    if originalSymbol.data.any (fun c => c = '.') then
      [(splitCh '.' originalSymbol).headD ""]
    else
      [originalSymbol ++ ".PA", originalSymbol ++ ".L", originalSymbol ++ ".DE",
       originalSymbol ++ ".MC", originalSymbol ++ ".SW", originalSymbol ++ ".AS",
       originalSymbol ++ ".MI", originalSymbol ++ ".BR", originalSymbol ++ ".HE",
       originalSymbol ++ ".ST", originalSymbol ++ ".OL", originalSymbol ++ ".CO"]
  let alternatives :=
    if assetName ≠ "" ∧ assetName ≠ originalSymbol then
      let nameLower := jsToLower assetName
      let fromMap := smartLookup smartMappings nameLower
      let baseName := jsTrim ⟨splitCompanyAux assetName.data []⟩
      let firstWord := (splitCh ' ' baseName).headD ""
      alternatives ++ fromMap ++
        (if 3 ≤ firstWord.data.length ∧ firstWord.data.length ≤ 6 then
          [jsToUpper firstWord] else [])
    else alternatives
  dedupFirst alternatives []

/-! ### Unresolved-ISIN exclusion in `importPositions`
(`src/unnamed/part_006`)

After parsing, `importPositions` resolves ISIN-shaped identifiers via
the tiered resolver and then (a) collects identifiers for which
`resolved[p.symbol]` was falsy and ISIN-shaped into `unresolvedISINs`,
pushes one error naming them and removes every position whose symbol is
still ISIN-shaped, and (b) runs a final safety pass (after the user
confirms) removing any remaining ISIN-symbol position with a
per-position error.  The network/interactive resolution is abstracted:
each parsed position is paired with `none` when the resolver produced
nothing for its symbol, or `some s` when the resolution branch ran and
left the position's symbol as `s` (confident result, user pick, manual
entry, or unchanged after a cancelled prompt). -/

/-- The position after the resolution-application loop. -/
def applyResolution (it : Position × Option String) : Position :=
  match it.2 with
  | some s => { it.1 with symbol := s }
  | none => it.1

/-- `unresolvedISINs`: identifiers with no resolution that are
    ISIN-shaped. -/
def unresolvedSyms (items : List (Position × Option String)) : List String :=
  (items.filter (fun it => it.2 = none && isISIN it.1.symbol)).map (·.1.symbol)

/-- The batch error naming the unresolved ISINs. -/
def unresolvedErrMsg (syms : List String) : String :=
  "Could not resolve " ++ toString syms.length ++ " ISIN(s) to tickers: "
    ++ String.intercalate ", " syms
    ++ ". These positions were skipped — please provide the correct ticker symbol."

/-- The per-position error of the final safety pass. -/
def isinSkippedMsg (sym : String) : String :=
  sym ++ ": ISIN not resolved to ticker — skipped."

/-- The two exclusion passes of `importPositions` after resolution,
    returning the imported position list and the errors raised (the
    final pass iterates backwards, so its errors come in reverse
    position order). -/
def importExclusion (items : List (Position × Option String)) :
    List Position × List String :=
  let ps := items.map applyResolution
  let unresolved := unresolvedSyms items
  let ps1 := if unresolved ≠ [] then ps.filter (fun p => !isISIN p.symbol) else ps
  let errs1 := if unresolved ≠ [] then [unresolvedErrMsg unresolved] else []
  let ps2 := ps1.filter (fun p => !isISIN p.symbol)
  let errs2 := ((ps1.filter (fun p => isISIN p.symbol)).reverse).map
    (fun p => isinSkippedMsg p.symbol)
  (ps2, errs1 ++ errs2)

/-- Concrete import items for the C5 witness: one unresolved ISIN row,
    one resolved ISIN row, one plain ticker row. -/
def itemsW : List (Position × Option String) :=
  [(⟨"Apple", "US0378331005", "X", "Stock", 1, 10⟩, none),
   (⟨"Acme", "DE0001234567", "X", "Stock", 2, 20⟩, some "ACME"),
   (⟨"Plain", "AAPL", "X", "Stock", 3, 30⟩, none)]

/-! ### Flexible import parser (`parsePortfolioText` and helpers,
`src/services/storage.js`) -/

/-- Occurrences of a character in a string. -/
def countCh (c : Char) (s : String) : ℕ := (s.data.filter (fun d => d = c)).length

/-- `detectSeparator(text)`: count tab/semicolon/pipe/comma over the
    first 5 lines, preferring them in that order; default tab. -/
def detectSeparator (text : String) : Char :=
  let firstLines := String.intercalate "\n" ((splitCh '\n' text).take 5)
  if countCh '\t' firstLines ≥ 1 then '\t'
  else if countCh ';' firstLines ≥ 1 then ';'
  else if countCh '|' firstLines ≥ 1 then '|'
  else if countCh ',' firstLines ≥ 1 then ','
  else '\t'

/-- Characters removed by `/[$€£¥C\$HK\$kr\s]/gi`: the currency symbols
    and (because the class lists the letters `C H K k r` and the flag is
    case-insensitive) the letters c/h/k/r in either case, plus
    whitespace. -/
def isStripCh (c : Char) : Bool :=
  c = '$' || c = '€' || c = '£' || c = '¥' ||
    lowerCh c = 'c' || lowerCh c = 'h' || lowerCh c = 'k' || lowerCh c = 'r' ||
    isWsCh c

/-- `(\.\d{3})*(,\d+)?$` after the leading digits of
    `/^\d{1,3}(\.\d{3})*(,\d+)?$/`. -/
def matchDotGroups : List Char → Bool
  | [] => true
  | '.' :: a :: b :: c :: rest =>
    isDigitCh a && isDigitCh b && isDigitCh c && matchDotGroups rest
  | ',' :: rest => !rest.isEmpty && rest.all isDigitCh
  | _ => false

/-- `/^\d{1,3}(\.\d{3})*(,\d+)?$/` (European grouping with optional
    decimal comma). -/
def matchA (cs : List Char) : Bool :=
  let digs := cs.takeWhile isDigitCh
  decide (1 ≤ digs.length) && decide (digs.length ≤ 3) &&
    matchDotGroups (cs.dropWhile isDigitCh)

/-- `/^\d+(,\d{1,2})$/` (plain decimal comma). -/
def matchB (cs : List Char) : Bool :=
  let digs := cs.takeWhile isDigitCh
  decide (1 ≤ digs.length) &&
    (match cs.dropWhile isDigitCh with
     | ',' :: ds => decide (1 ≤ ds.length) && decide (ds.length ≤ 2) && ds.all isDigitCh
     | _ => false)

/-- `s.replace(',', '.')`: only the first comma is replaced. -/
def replaceFirstComma : List Char → List Char
  | [] => []
  | ',' :: rest => '.' :: rest
  | c :: rest => c :: replaceFirstComma rest

def digitsToNat (ds : List Char) : ℕ :=
  ds.foldl (fun n c => 10 * n + (c.toNat - 48)) 0

/-- The optional exponent of `parseFloat` (`e`/`E` already consumed);
    without following digits the exponent is not consumed (`"1e"` → 1). -/
def expPart (l : List Char) : ℤ :=
  match l with
  | '-' :: ds =>
    if (ds.takeWhile isDigitCh).isEmpty then 0
    else -(digitsToNat (ds.takeWhile isDigitCh) : ℤ)
  | '+' :: ds =>
    if (ds.takeWhile isDigitCh).isEmpty then 0
    else (digitsToNat (ds.takeWhile isDigitCh) : ℤ)
  | ds =>
    if (ds.takeWhile isDigitCh).isEmpty then 0
    else (digitsToNat (ds.takeWhile isDigitCh) : ℤ)

/-- `parseFloat`: leading whitespace, optional sign, digits with an
    optional fraction, optional exponent; the longest valid prefix is
    parsed and trailing garbage ignored; `none` models `NaN`. -/
def parseFloatQ (s : String) : Option ℚ :=
  let cs0 := s.data.dropWhile isWsCh
  let sign : ℚ := match cs0 with
    | '-' :: _ => -1
    | _ => 1
  let cs := match cs0 with
    | '-' :: rest => rest
    | '+' :: rest => rest
    | _ => cs0
  let intDigs := cs.takeWhile isDigitCh
  let cs1 := cs.dropWhile isDigitCh
  let fracDigs := match cs1 with
    | '.' :: rest => rest.takeWhile isDigitCh
    | _ => []
  let cs2 := match cs1 with
    | '.' :: rest => rest.dropWhile isDigitCh
    | _ => cs1
  if intDigs.isEmpty && fracDigs.isEmpty then none
  else
    let mant : ℚ := (digitsToNat intDigs : ℚ)
      + (digitsToNat fracDigs : ℚ) / (10 : ℚ) ^ fracDigs.length
    let exp : ℤ := match cs2 with
      | 'e' :: rest => expPart rest
      | 'E' :: rest => expPart rest
      | _ => 0
    some (sign * mant * (10 : ℚ) ^ exp)

/-- `parseFlexibleNumber(raw)` from `src/services/storage.js`. -/
def parseFlexibleNumber (raw : String) : Option ℚ :=
  if raw = "" then none
  else
    let s := jsTrim raw
    let s := jsTrim ⟨s.data.filter (fun c => !isStripCh c)⟩
    let cs := s.data
    let cs :=
      if decide (3 ≤ cs.length) && decide (cs.head? = some '(')
          && decide (cs.getLast? = some ')')
          && ((cs.drop 1).dropLast.all (fun c => !(c = '\n'))) then
        '-' :: (cs.drop 1).dropLast
      else cs
    let cs :=
      if matchA cs then replaceFirstComma (cs.filter (fun c => !(c = '.')))
      else if matchB cs then replaceFirstComma cs
      else cs
    let cs := cs.filter (fun c => !(c = ','))
    parseFloatQ ⟨cs⟩

/-- `COLUMN_ALIASES` from `src/services/storage.js`. -/
def aliasesFor (role : String) : List String :=
  if role = "symbol" then
    ["ticker", "symbol", "isin", "code", "instrument", "stock", "asset code",
     "security", "id", "wkn", "sedol", "cusip", "valor"]
  else if role = "shares" then
    ["shares", "quantity", "qty", "units", "amount of shares", "no. of shares",
     "no of shares", "number of shares", "holding", "holdings", "position",
     "volume", "lots", "antal"]
  else if role = "price" then
    ["avg price", "avg unit price", "average price", "avg cost", "average cost",
     "unit cost", "cost price", "purchase price", "buy price", "price per share",
     "price/share", "entry price", "cost basis per share", "cost/share",
     "avg unit cost", "prix moyen", "snitt"]
  else if role = "name" then
    ["asset", "asset name", "name", "company", "company name", "description",
     "security name", "instrument name", "stock name", "product"]
  else if role = "platform" then
    ["platform", "broker", "account", "exchange", "market", "provider",
     "source", "brokerage"]
  else if role = "type" then
    ["type", "asset type", "security type", "instrument type", "asset class",
     "category", "class"]
  else if role = "amount" then
    ["invested", "invested amount", "total invested", "total cost", "cost basis",
     "total amount", "amount invested", "book value", "book cost", "market value",
     "value", "total value"]
  else []

/-- `matchesRole(headerText, role)`: exact alias match on the lowercased
    trimmed cell, or after removing every character outside
    `[a-z0-9 ]`. -/
def matchesRole (headerText role : String) : Bool :=
  let lower := jsTrim (jsToLower headerText)
  (aliasesFor role).any (fun al =>
    lower = al ||
      jsTrim ⟨lower.data.filter (fun c => isLowerAlpha c || isDigitCh c || c = ' ')⟩
        = al)

structure Mapping where
  symbol : Option ℕ := none
  shares : Option ℕ := none
  price : Option ℕ := none
  name : Option ℕ := none
  platform : Option ℕ := none
  type : Option ℕ := none
  amount : Option ℕ := none
deriving DecidableEq, Repr

/-- JS `!mapping[role]`: true when the role is unset *or set to column
    0* (the falsy test applied to an index — reproduced faithfully). -/
def roleFalsy : Option ℕ → Bool
  | none => true
  | some i => i = 0

/-- One cell of the `headerParts.forEach` of `detectColumnMapping`:
    assign the cell to the first still-falsy role it matches. -/
def assignRole (m : Mapping) (idx : ℕ) (cell : String) : Mapping :=
  if roleFalsy m.symbol && matchesRole cell "symbol" then { m with symbol := some idx }
  else if roleFalsy m.shares && matchesRole cell "shares" then { m with shares := some idx }
  else if roleFalsy m.price && matchesRole cell "price" then { m with price := some idx }
  else if roleFalsy m.name && matchesRole cell "name" then { m with name := some idx }
  else if roleFalsy m.platform && matchesRole cell "platform" then { m with platform := some idx }
  else if roleFalsy m.type && matchesRole cell "type" then { m with type := some idx }
  else if roleFalsy m.amount && matchesRole cell "amount" then { m with amount := some idx }
  else m

/-- `detectColumnMapping(headerParts)`: accepted only when both the
    symbol and the shares role matched. -/
def detectColumnMapping (headerParts : List String) : Option Mapping :=
  let m := headerParts.enum.foldl (fun m ic => assignRole m ic.1 ic.2) {}
  if m.symbol ≠ none ∧ m.shares ≠ none then some m else none

/-- The header-detection loop over the first three lines: returns the
    mapping and `dataStartIdx = i + 1` for the first line whose cells
    yield a mapping. -/
def headerScanAux (sep : Char) : List (ℕ × String) → Option (Mapping × ℕ)
  | [] => none
  | (i, line) :: rest =>
    let trimmed := jsTrim line
    if trimmed = "" then headerScanAux sep rest
    else match detectColumnMapping ((splitCh sep trimmed).map jsTrim) with
      | some m => some (m, i + 1)
      | none => headerScanAux sep rest

/-- `/^[A-Z0-9.]{1,12}$/i`. -/
def isTickerShaped (p : String) : Bool :=
  decide (1 ≤ p.data.length) && decide (p.data.length ≤ 12) &&
    p.data.all (fun c => isUpperAlpha c || isLowerAlpha c || isDigitCh c || c = '.')

inductive ColType
  | empty
  | number
  | isin
  | ticker
  | text
deriving DecidableEq, Repr

/-- The per-cell classification of the positional fallback. -/
def classifyCell (p : String) : ColType :=
  if p = "" then .empty
  else if (parseFlexibleNumber p).isSome then .number
  else if isISIN (jsToUpper p) then .isin
  else if isTickerShaped p then .ticker
  else .text

def isWordCh (c : Char) : Bool :=
  isLowerAlpha c || isUpperAlpha c || isDigitCh c || c = '_'

def afterBoundary : List Char → Bool
  | [] => true
  | c :: _ => !isWordCh c

/-- A word-boundary match of `w` exactly here, given the previous
    character. -/
def hasWordAt (w : List Char) (cs : List Char) (prev : Option Char) : Bool :=
  (match prev with | none => true | some c => !isWordCh c) &&
    strPrefix w cs && afterBoundary (cs.drop w.length)

def hasWordFrom (w : List Char) : List Char → Option Char → Bool
  | [], prev => hasWordAt w [] prev
  | c :: rest, prev => hasWordAt w (c :: rest) prev || hasWordFrom w rest (some c)

/-- `\b(w₁|w₂|...)\b.test(s)`. -/
def hasAnyWord (ws : List String) (s : String) : Bool :=
  ws.any (fun w => hasWordFrom w.data s.data none)

def headerWords1 : List String :=
  ["asset", "ticker", "symbol", "name", "shares", "price", "type", "platform"]

def headerWords2 : List String :=
  ["asset", "ticker", "symbol", "isin", "name", "shares", "price", "quantity", "units"]

/-- The no-header fallback of `parsePortfolioText`: legacy ≥8-column
    layout, else positional classification, each optionally overridden
    when the sample line looks like a header. -/
def fallbackMapping (sep : Char) (lines : List String) : Option Mapping × ℕ :=
  match (lines.map jsTrim).find? (fun t => !(t = "")) with
  | none => (none, 0)
  | some sampleLine =>
    let parts := (splitCh sep sampleLine).map jsTrim
    if parts.length ≥ 8 then
      let m : Mapping :=
        { name := some 0, symbol := some 1, platform := some 2, type := some 3,
          shares := some 4, price := some 7 }
      (some m, if hasAnyWord headerWords1 (jsToLower sampleLine) then 1 else 0)
    else if parts.length ≥ 2 then
      let colTypes := parts.map classifyCell
      let symbolIdx := colTypes.findIdx? (fun t => t = ColType.ticker || t = ColType.isin)
      let numberIdxs := (colTypes.enum.filter (fun it => it.2 = ColType.number)).map (·.1)
      let m0 : Option Mapping :=
        match symbolIdx with
        | some si =>
          if 1 ≤ numberIdxs.length then
            let base : Mapping :=
              { symbol := some si, shares := numberIdxs.head?,
                price := numberIdxs.get? 1 }
            let nameIdx := ((colTypes.enum.filter
              (fun it => it.2 = ColType.text && !(it.1 = si))).map (·.1)).head?
            some { base with name := nameIdx }
          else none
        | none => none
      if hasAnyWord headerWords2 (jsToLower sampleLine) then
        (detectColumnMapping ((splitCh sep sampleLine).map jsTrim), 1)
      else (m0, 0)
    else (none, 0)

structure ParsedPos where
  name : String
  symbol : String
  platform : String
  type : String
  shares : ℚ
  avgPrice : ℚ
  needsCurrentPrice : Bool
  resolvedFrom : Option String
deriving DecidableEq, Repr

structure ParseResult where
  positions : List ParsedPos
  errors : List String
  warnings : List String
deriving DecidableEq, Repr

/-- The `typeMap` normalization applied to the lowercased type cell. -/
def typeMapLookup (t : String) : Option String :=
  if t = "etf" then some "ETF"
  else if t = "reit" then some "REIT"
  else if t = "crypto" then some "Crypto"
  else if t = "stock" then some "Stock"
  else if t = "bond" then some "Bond"
  else if t = "fund" then some "ETF"
  else if t = "equity" then some "Stock"
  else if t = "common stock" then some "Stock"
  else if t = "etp" then some "ETF"
  else none

/-- `mapping.role !== undefined && parts[mapping.role] ? trim : ''`. -/
def getCell (parts : List String) (idx : Option ℕ) : String :=
  match idx with
  | none => ""
  | some i =>
    match parts.get? i with
    | none => ""
    | some v => if v = "" then "" else jsTrim v

def invalidQtyMsg (lineNum : ℕ) (rawShares rawSymbol : String) : String :=
  "Line " ++ toString lineNum ++ ": Invalid quantity \"" ++ rawShares
    ++ "\" for " ++ rawSymbol

def missingSymbolMsg (lineNum : ℕ) : String :=
  "Line " ++ toString lineNum ++ ": Missing ticker/symbol/ISIN"

def noPriceMsg (rawSymbol : String) : String :=
  rawSymbol ++ ": No acquisition price — will use current market price"

def layoutErrMsg : String :=
  "Could not detect column layout — need at least a Ticker/Symbol/ISIN column and a Quantity/Shares column"

/-- One iteration of the data-row loop of `parsePortfolioText`,
    accumulating `(positions, errors, warnings)`. -/
def processRow (mp : Mapping) (sep : Char)
    (acc : List ParsedPos × List String × List String)
    (il : ℕ × String) : List ParsedPos × List String × List String :=
  if jsTrim il.2 = "" then acc
  else
    let parts := (splitCh sep il.2).map jsTrim
    let lineNum := il.1 + 1
    let rawSymbol := getCell parts mp.symbol
    let rawShares := getCell parts mp.shares
    let rawPrice := getCell parts mp.price
    let rawName := getCell parts mp.name
    let rawPlatform := getCell parts mp.platform
    let rawType := getCell parts mp.type
    let rawAmount := getCell parts mp.amount
    if rawSymbol = "" then
      (acc.1, acc.2.1 ++ [missingSymbolMsg lineNum], acc.2.2)
    else
      match parseFlexibleNumber rawShares with
      | none => (acc.1, acc.2.1 ++ [invalidQtyMsg lineNum rawShares rawSymbol], acc.2.2)
      | some shares =>
        if shares ≤ 0 then
          (acc.1, acc.2.1 ++ [invalidQtyMsg lineNum rawShares rawSymbol], acc.2.2)
        else
          let symbol := jsToUpper rawSymbol
          let price0 := parseFlexibleNumber rawPrice
          let price1 :=
            if (match price0 with
                | none => true
                | some v => decide (v ≤ 0)) && !(rawAmount = "") then
              match parseFlexibleNumber rawAmount with
              | some totalAmount =>
                if 0 < totalAmount then some (totalAmount / shares) else price0
              | none => price0
            else price0
          let avgPrice : ℚ := match price1 with
            | some v => if 0 < v then v else 0
            | none => 0
          let needs : Bool := match price1 with
            | some v => decide (v ≤ 0)
            | none => true
          let warn : List String := if needs then [noPriceMsg rawSymbol] else []
          let assetType := if rawType = "" then "Stock" else rawType
          let assetType := match typeMapLookup (jsToLower assetType) with
            | some t => t
            | none => assetType
          (acc.1 ++
            [⟨if rawName = "" then symbol else rawName, symbol,
              if rawPlatform = "" then "Unknown" else rawPlatform, assetType,
              shares, avgPrice, needs,
              if isISIN symbol then some symbol else none⟩],
           acc.2.1, acc.2.2 ++ warn)

/-- `parsePortfolioText(text)` from `src/services/storage.js`. -/
def parsePortfolioText (text : String) : ParseResult :=
  if text = "" ∨ jsTrim text = "" then ⟨[], ["No text provided"], []⟩
  else
    let separator := detectSeparator text
    let lines := splitCh '\n' text
    let header := headerScanAux separator ((lines.take 3).enum)
    let md : Option Mapping × ℕ :=
      match header with
      | some (m, ds) => (some m, ds)
      | none => fallbackMapping separator lines
    match md.1 with
    | none => ⟨[], [layoutErrMsg], []⟩
    | some mp =>
      if mp.symbol = none ∨ mp.shares = none then ⟨[], [layoutErrMsg], []⟩
      else
        let r := (lines.enum.drop md.2).foldl (processRow mp separator) ([], [], [])
        ⟨r.1, r.2.1, r.2.2⟩

/-! ## Helper lemmas -/

theorem updateFirst_of_find? {pred : Position → Bool} (f : Position → Position) :
    ∀ {l : List Position} {a : Position}, l.find? pred = some a →
      ∃ l₁ l₂, l = l₁ ++ a :: l₂ ∧ (∀ x ∈ l₁, pred x = false) ∧
        updateFirst pred f l = l₁ ++ f a :: l₂ := by
  intro l
  induction l with
  | nil => intro a h; simp at h
  | cons p ps ih =>
    intro a h
    by_cases hp : pred p = true
    · rw [List.find?_cons_of_pos _ hp] at h
      obtain rfl := Option.some.inj h
      exact ⟨[], ps, rfl, by simp, by simp [updateFirst, hp]⟩
    · rw [List.find?_cons_of_neg _ hp] at h
      obtain ⟨l₁, l₂, hl, h₁, h₂⟩ := ih h
      refine ⟨p :: l₁, l₂, by rw [hl]; rfl, ?_, ?_⟩
      · intro x hx
        rcases List.mem_cons.mp hx with rfl | hx
        · exact Bool.eq_false_iff.mpr hp
        · exact h₁ x hx
      · simp [updateFirst, hp, h₂]

theorem mem_updateFirst {pred : Position → Bool} {f : Position → Position} :
    ∀ {l : List Position} {q : Position}, q ∈ updateFirst pred f l →
      q ∈ l ∨ ∃ a, l.find? pred = some a ∧ q = f a := by
  intro l
  induction l with
  | nil => intro q hq; simp [updateFirst] at hq
  | cons p ps ih =>
    intro q hq
    by_cases hp : pred p = true
    · simp only [updateFirst, if_pos hp, List.mem_cons] at hq
      rcases hq with rfl | hq
      · exact Or.inr ⟨p, List.find?_cons_of_pos _ hp, rfl⟩
      · exact Or.inl (List.mem_cons_of_mem _ hq)
    · simp only [updateFirst, if_neg hp, List.mem_cons] at hq
      rcases hq with rfl | hq
      · exact Or.inl (List.mem_cons_self _ _)
      · rcases ih hq with h | ⟨a, ha, rfl⟩
        · exact Or.inl (List.mem_cons_of_mem _ h)
        · exact Or.inr ⟨a, by rw [List.find?_cons_of_neg _ hp, ha], rfl⟩

theorem find?_middle {α : Type} {pred : α → Bool} {l₁ l₂ : List α} {b : α}
    (h₁ : ∀ x ∈ l₁, pred x = false) (hb : pred b = true) :
    (l₁ ++ b :: l₂).find? pred = some b := by
  induction l₁ with
  | nil => simpa using List.find?_cons_of_pos _ hb
  | cons x xs ih =>
    have hx := h₁ x (List.mem_cons_self x xs)
    rw [List.cons_append, List.find?_cons_of_neg _ (by simp [hx])]
    exact ih (fun y hy => h₁ y (List.mem_cons_of_mem _ hy))

theorem lookupTxs_pushTx (t : List (String × List Tx)) (sym : String) (tx : Tx) :
    lookupTxs (pushTx t sym tx) sym = lookupTxs t sym ++ [tx] := by
  induction t with
  | nil => simp [lookupTxs, pushTx]
  | cons kv rest ih =>
    obtain ⟨s, l⟩ := kv
    by_cases hs : s = sym
    · subst hs
      simp [lookupTxs, pushTx, List.find?_cons]
    · simp only [lookupTxs, pushTx, if_neg hs, List.find?_cons] at ih ⊢
      simp only [hs, decide_False, Bool.false_eq_true, if_false] at ih ⊢
      exact ih

/-- If the shares of the rewritten position stay nonnegative, so do all
    shares after `updateFirst`. -/
theorem nonneg_after_updateFirst {pred : Position → Bool} {f : Position → Position}
    {l : List Position} (h : ∀ p ∈ l, 0 ≤ p.shares)
    (hf : ∀ a, l.find? pred = some a → 0 ≤ (f a).shares) :
    ∀ p ∈ updateFirst pred f l, 0 ≤ p.shares := by
  intro q hq
  rcases mem_updateFirst hq with hq | ⟨a, ha, rfl⟩
  · exact h q hq
  · exact hf a ha

theorem submitPosition_ok_nonneg {env : Env} {mode : Mode} {form : PositionForm}
    {st st' : Ledger} (h : ∀ p ∈ st.portfolio, 0 ≤ p.shares)
    (hok : submitPosition env mode form st = .ok st') :
    ∀ p ∈ st'.portfolio, 0 ≤ p.shares := by
  simp only [submitPosition] at hok
  split at hok; · exact Except.noConfusion hok
  split at hok; · exact Except.noConfusion hok
  split at hok; · exact Except.noConfusion hok
  next hshares =>
  split at hok; · exact Except.noConfusion hok
  split at hok; · exact Except.noConfusion hok
  have hsh : (0 : ℚ) < form.shares := lt_of_not_le hshares
  cases mode with
  | add =>
    simp only at hok
    split at hok
    next existing hfind =>
      split at hok; · exact Except.noConfusion hok
      injection hok with hst
      subst hst
      refine nonneg_after_updateFirst h ?_
      intro a _
      exact le_of_lt hsh
    next hfind =>
      injection hok with hst
      subst hst
      intro p hp
      rcases List.mem_append.mp hp with hp | hp
      · exact h p hp
      · simp only [List.mem_singleton] at hp
        subst hp
        exact le_of_lt hsh
  | buy =>
    simp only at hok
    split at hok; · exact Except.noConfusion hok
    next position hfind =>
      injection hok with hst
      subst hst
      refine nonneg_after_updateFirst h ?_
      intro a _
      have hpos : 0 ≤ position.shares := h position (List.mem_of_find?_eq_some hfind)
      simpa using add_nonneg hpos (le_of_lt hsh)
  | sell =>
    simp only at hok
    split at hok; · exact Except.noConfusion hok
    next position hfind =>
      split at hok; · exact Except.noConfusion hok
      next hguard =>
        injection hok with hst
        subst hst
        refine nonneg_after_updateFirst h ?_
        intro a ha
        obtain rfl := Option.some.inj (hfind.symm.trans ha)
        simpa using sub_nonneg.mpr (not_lt.mp hguard)

theorem applyOp_nonneg (env : Env) {st : Ledger} (op : Op)
    (h : ∀ p ∈ st.portfolio, 0 ≤ p.shares) :
    ∀ p ∈ (applyOp env st op).portfolio, 0 ≤ p.shares := by
  unfold applyOp
  cases hres : submitPosition env op.mode op.form st with
  | ok st' => exact submitPosition_ok_nonneg h hres
  | error e => exact h

theorem runOps_nonneg (env : Env) (ops : List Op) :
    ∀ {st : Ledger}, (∀ p ∈ st.portfolio, 0 ≤ p.shares) →
      ∀ p ∈ (runOps env st ops).portfolio, 0 ≤ p.shares := by
  induction ops with
  | nil => intro st h; exact h
  | cons op rest ih =>
    intro st h
    exact ih (applyOp_nonneg env op h)

/-- The dialog fields for the C3 buy/add scenarios: symbol `sym`, no
    name/type/platform input, `s` shares totalling `t`. -/
def buyForm (sym : String) (s t : ℚ) (date : String) : PositionForm :=
  ⟨sym, sym, "", "", "", s, t, date⟩

theorem submitPosition_buy_step
    (env : Env) (form : PositionForm) (st : Ledger) (position : Position)
    (hsym : jsToUpper (jsTrim form.symbol) ≠ "")
    (hisin : isISIN (jsToUpper (jsTrim form.symbol)) = false)
    (hsh : 0 < form.shares) (hamt : 0 < form.totalAmount) (hdate : form.date ≠ "")
    (hfind : st.portfolio.find? (fun p => p.symbol = form.dialogSymbol) = some position) :
    ∃ st', submitPosition env .buy form st = .ok st'
      ∧ st'.portfolio.find? (fun p => p.symbol = form.dialogSymbol)
          = some { position with
              shares := position.shares + form.shares,
              avgPrice := (position.shares * position.avgPrice
                  + form.shares * (form.totalAmount / form.shares))
                / (position.shares + form.shares) } := by
  have hpred : position.symbol = form.dialogSymbol := by
    simpa using List.find?_some hfind
  obtain ⟨l₁, l₂, hdecomp, hnot, hupd⟩ :=
    updateFirst_of_find?
      (f := fun p => { p with
        shares := position.shares + form.shares,
        avgPrice := (position.shares * position.avgPrice
            + form.shares * (form.totalAmount / form.shares))
          / (position.shares + form.shares) }) hfind
  refine ⟨⟨updateFirst (fun p => p.symbol = form.dialogSymbol)
            (fun p => { p with
              shares := position.shares + form.shares,
              avgPrice := (position.shares * position.avgPrice
                  + form.shares * (form.totalAmount / form.shares))
                / (position.shares + form.shares) }) st.portfolio,
          recordTransaction env st.transactions position.symbol .buy form.shares
            (form.totalAmount / form.shares) form.date form.totalAmount none none⟩,
          ?_, ?_⟩
  · simp only [submitPosition, hfind]
    rw [if_neg hsym, if_neg (by simp [hisin]), if_neg (not_le.mpr hsh),
      if_neg (not_le.mpr hamt), if_neg hdate]
  · rw [hupd]
    exact find?_middle hnot (by simp [hpred])

/-- After a run of valid buys on `sym`, the position found for `sym`
    carries the accumulated share count and the quotient of the
    accumulated cost by it; only `shares`/`avgPrice` change. -/
theorem runOps_buys
    (env : Env) (sym date : String)
    (hsym : jsToUpper (jsTrim sym) ≠ "")
    (hisin : isISIN (jsToUpper (jsTrim sym)) = false)
    (hdate : date ≠ "") :
    ∀ (buys : List (ℚ × ℚ)) (st : Ledger) (position : Position),
      st.portfolio.find? (fun p => p.symbol = sym) = some position →
      0 < position.shares →
      (∀ b ∈ buys, 0 < b.1 ∧ 0 < b.2) →
      (runOps env st (buys.map (fun b => ⟨.buy, buyForm sym b.1 b.2 date⟩))).portfolio.find?
          (fun p => p.symbol = sym)
        = some ⟨position.name, position.symbol, position.platform, position.type,
            position.shares + (buys.map Prod.fst).sum,
            (position.shares * position.avgPrice + (buys.map Prod.snd).sum)
              / (position.shares + (buys.map Prod.fst).sum)⟩ := by
  intro buys
  induction buys with
  | nil =>
    intro st position hfind hpos _
    obtain ⟨n, sy, pl, ty, sh, av⟩ := position
    simp only [List.map_nil, runOps, List.foldl_nil, List.map_nil, List.sum_nil,
      add_zero] at hfind ⊢
    rw [hfind]
    have hsh0 : sh ≠ 0 := ne_of_gt (by simpa using hpos)
    rw [mul_div_cancel_left₀ av hsh0]
  | cons b rest ih =>
    intro st position hfind hpos hb
    obtain ⟨hb1, hb2⟩ := hb b (List.mem_cons_self _ _)
    have hrest : ∀ x ∈ rest, 0 < x.1 ∧ 0 < x.2 :=
      fun x hx => hb x (List.mem_cons_of_mem _ hx)
    obtain ⟨st', hok, hfind'⟩ :=
      submitPosition_buy_step env (buyForm sym b.1 b.2 date) st position
        hsym hisin hb1 hb2 hdate hfind
    have happly : applyOp env st ⟨.buy, buyForm sym b.1 b.2 date⟩ = st' := by
      unfold applyOp
      rw [hok]
    have hpos' : (0 : ℚ) < position.shares + b.1 := add_pos hpos hb1
    have hstep := ih st'
      ⟨position.name, position.symbol, position.platform, position.type,
        position.shares + b.1,
        (position.shares * position.avgPrice + b.1 * (b.2 / b.1))
          / (position.shares + b.1)⟩
      (by simpa [buyForm] using hfind') (by simpa using hpos') hrest
    simp only [List.map_cons, runOps, List.foldl_cons, happly] at hstep ⊢
    rw [hstep]
    have hb1' : b.1 ≠ 0 := ne_of_gt hb1
    have hS : position.shares + b.1 ≠ 0 := ne_of_gt hpos'
    have hnum : (position.shares + b.1) *
        ((position.shares * position.avgPrice + b.1 * (b.2 / b.1))
          / (position.shares + b.1))
        = position.shares * position.avgPrice + b.2 := by
      field_simp
    congr 2
    · rw [List.sum_cons]
      ring
    · rw [List.sum_cons, List.sum_cons, hnum]
      ring

/-- A successful `add` on a fresh symbol appends the new position
    (`avgPrice = totalAmount / shares`). -/
theorem submitPosition_add_new
    (env : Env) (st : Ledger) (sym date : String) (s₀ t₀ : ℚ)
    (hcanon : jsToUpper (jsTrim sym) = sym) (hne : sym ≠ "")
    (hisin : isISIN sym = false) (hdate : date ≠ "")
    (hs₀ : 0 < s₀) (ht₀ : 0 < t₀)
    (hnone : st.portfolio.find? (fun p => p.symbol = sym) = none) :
    ∃ st', submitPosition env .add (buyForm sym s₀ t₀ date) st = .ok st'
      ∧ st'.portfolio.find? (fun p => p.symbol = sym)
          = some ⟨sym, sym, "Unknown", "", s₀, t₀ / s₀⟩ := by
  have hname : jsTrim "" = "" := by decide
  refine ⟨⟨st.portfolio ++ [⟨sym, sym, "Unknown", "", s₀, t₀ / s₀⟩],
          recordTransaction env st.transactions sym .buy s₀ (t₀ / s₀) date t₀
            none none⟩, ?_, ?_⟩
  · simp only [submitPosition, buyForm, hcanon, hname, hnone]
    rw [if_neg hne, if_neg (by simp [hisin]), if_neg (not_le.mpr hs₀),
      if_neg (not_le.mpr ht₀), if_neg hdate]
    simp
  · rw [List.find?_append, hnone]
    simp [List.find?_cons]

/-! ### Snapshot-merge helper lemmas -/

theorem snapLE_trans : ∀ a b c : Snapshot,
    snapLE a b = true → snapLE b c = true → snapLE a c = true := by
  intro a b c hab hbc
  simp only [snapLE, decide_eq_true_eq] at *
  omega

theorem snapLE_total : ∀ a b : Snapshot, (snapLE a b || snapLE b a) = true := by
  intro a b
  simp only [snapLE, Bool.or_eq_true, decide_eq_true_eq]
  omega

theorem addIncoming_eq_filter :
    ∀ (B : List Snapshot) (seen : List ℕ), (B.map (·.timestamp)).Nodup →
      addIncoming B seen = B.filter (fun s => s.timestamp ∉ seen) := by
  intro B
  induction B with
  | nil => intro seen _; rfl
  | cons s rest ih =>
    intro seen hnd
    simp only [List.map_cons, List.nodup_cons] at hnd
    obtain ⟨hs, hrest⟩ := hnd
    by_cases hmem : s.timestamp ∈ seen
    · rw [addIncoming, if_pos hmem, ih seen hrest]
      rw [List.filter_cons_of_neg (by simpa using hmem)]
    · rw [addIncoming, if_neg hmem, ih _ hrest,
        List.filter_cons_of_pos (by simpa using hmem)]
      congr 1
      refine List.filter_congr ?_
      intro x hx
      have hne : x.timestamp ≠ s.timestamp := by
        intro heq
        exact hs (heq ▸ List.mem_map_of_mem (·.timestamp) hx)
      simp [List.mem_cons, hne]

theorem addIncoming_eq_nil :
    ∀ (B : List Snapshot) (seen : List ℕ), (∀ s ∈ B, s.timestamp ∈ seen) →
      addIncoming B seen = [] := by
  intro B
  induction B with
  | nil => intro seen _; rfl
  | cons s rest ih =>
    intro seen h
    rw [addIncoming, if_pos (h s (List.mem_cons_self _ _))]
    exact ih seen (fun x hx => h x (List.mem_cons_of_mem _ hx))

theorem ts_mem_addIncoming :
    ∀ (B : List Snapshot) (seen : List ℕ) (s : Snapshot), s ∈ B →
      s.timestamp ∈ seen
      ∨ s.timestamp ∈ (addIncoming B seen).map (·.timestamp) := by
  intro B
  induction B with
  | nil => intro seen s h; cases h
  | cons x rest ih =>
    intro seen s hs
    rcases List.mem_cons.mp hs with rfl | hs
    · by_cases hmem : s.timestamp ∈ seen
      · exact Or.inl hmem
      · rw [addIncoming, if_neg hmem]
        right
        simp
    · by_cases hmem : x.timestamp ∈ seen
      · rw [addIncoming, if_pos hmem]
        exact ih seen s hs
      · rw [addIncoming, if_neg hmem]
        rcases ih (x.timestamp :: seen) s hs with h | h
        · rcases List.mem_cons.mp h with heq | h
          · right
            simp [heq]
          · exact Or.inl h
        · right
          simp [h]

/-! ### Totals accumulation helper lemma -/

theorem foldl_totalsStep (m : PriceMap) :
    ∀ (portfolio : List Position) (init : ℚ × ℚ × ℕ),
      portfolio.foldl (totalsStep m) init
        = (init.1 + (portfolio.map investedOf).sum,
           init.2.1 + (portfolio.map (marketValueOf m)).sum,
           init.2.2 + (portfolio.filter (hasTruthyPrice m)).length) := by
  intro portfolio
  induction portfolio with
  | nil => intro init; simp
  | cons p rest ih =>
    intro init
    rw [List.foldl_cons, ih]
    cases htp : truthyPrice m p.symbol with
    | some v =>
      simp only [totalsStep, htp, List.map_cons, List.sum_cons,
        List.filter_cons, hasTruthyPrice, Option.isSome_some, if_true,
        List.length_cons, investedOf, marketValueOf, Prod.mk.injEq]
      refine ⟨by ring, by ring, by omega⟩
    | none =>
      simp only [totalsStep, htp, List.map_cons, List.sum_cons,
        List.filter_cons, hasTruthyPrice, Option.isSome_none, if_false,
        List.length_cons, investedOf, marketValueOf, Prod.mk.injEq]
      refine ⟨by ring, by ring, rfl⟩

/-! ### Price-map helper lemmas (zero / missing quotes) -/

theorem lookupPrice_filter_out (m : PriceMap) (sym : String) :
    lookupPrice (m.filter (fun kv => !(kv.1 = sym))) sym = none := by
  have : (m.filter (fun kv => !(kv.1 = sym))).find? (fun kv => kv.1 = sym) = none := by
    refine List.find?_eq_none.mpr ?_
    intro x hx
    have := (List.mem_filter.mp hx).2
    simp only [Bool.not_eq_true', decide_eq_false_iff_not] at this
    simpa using this
  simp [lookupPrice, this]

theorem lookupPrice_filter_ne (m : PriceMap) (sym s : String) (hne : s ≠ sym) :
    lookupPrice (m.filter (fun kv => !(kv.1 = sym))) s = lookupPrice m s := by
  induction m with
  | nil => rfl
  | cons kv rest ih =>
    by_cases hkv : kv.1 = sym
    · rw [List.filter_cons_of_neg (by simp [hkv])]
      rw [ih]
      have hks : ¬(kv.1 = s) := by rw [hkv]; exact fun h => hne h.symm
      simp [lookupPrice, List.find?_cons, hks]
    · rw [List.filter_cons_of_pos (by simp [hkv])]
      by_cases hks : kv.1 = s
      · simp [lookupPrice, List.find?_cons, hks]
      · simp only [lookupPrice, List.find?_cons, hks, decide_False,
          Bool.false_eq_true, if_false] at ih ⊢
        exact ih

theorem truthyPrice_filter_zero (m : PriceMap) (sym : String)
    (h0 : lookupPrice m sym = some 0) :
    ∀ s, truthyPrice (m.filter (fun kv => !(kv.1 = sym))) s = truthyPrice m s := by
  intro s
  by_cases hs : s = sym
  · subst hs
    rw [truthyPrice, truthyPrice, h0, lookupPrice_filter_out]
    simp
  · rw [truthyPrice, truthyPrice, lookupPrice_filter_ne m sym s hs]

theorem length_filter_out_key (m : PriceMap) (sym : String)
    (hkeys : (m.map Prod.fst).Nodup) (h : lookupPrice m sym ≠ none) :
    m.length = (m.filter (fun kv => !(kv.1 = sym))).length + 1 := by
  induction m with
  | nil => simp [lookupPrice] at h
  | cons kv rest ih =>
    simp only [List.map_cons, List.nodup_cons] at hkeys
    obtain ⟨hk, hrest⟩ := hkeys
    by_cases hkv : kv.1 = sym
    · rw [List.filter_cons_of_neg (by simp [hkv])]
      have hnone : rest.filter (fun kv => !(kv.1 = sym)) = rest := by
        refine List.filter_eq_self.mpr ?_
        intro x hx
        have hne : x.1 ≠ sym := by
          intro heq
          exact hk (by rw [← hkv] at heq; exact heq ▸ List.mem_map_of_mem Prod.fst hx)
        simp [hne]
      rw [hnone]
      simp
    · rw [List.filter_cons_of_pos (by simp [hkv])]
      have h' : lookupPrice rest sym ≠ none := by
        simpa [lookupPrice, List.find?_cons, hkv] using h
      rw [List.length_cons, List.length_cons, ih hrest h']

/-! ## Claim theorems -/

/-- C1: a `sell` whose requested share count exceeds the shares held is
rejected with the error naming the requested and the available amounts,
and the ledger state (position list and transaction log) is unchanged;
consequently no sequence of add/buy/sell operations ever drives a
position's shares below `0`. -/
theorem sell_over_holdings_rejected
    (env : Env) (form : PositionForm) (st : Ledger) (position : Position)
    (hsym : jsToUpper (jsTrim form.symbol) ≠ "")
    (hisin : isISIN (jsToUpper (jsTrim form.symbol)) = false)
    (hsh : 0 < form.shares) (hamt : 0 < form.totalAmount) (hdate : form.date ≠ "")
    (hfind : st.portfolio.find? (fun p => p.symbol = form.dialogSymbol) = some position)
    (hover : position.shares < form.shares) :
    submitPosition env .sell form st = .error (sellErrMsg form.shares position.shares)
    ∧ applyOp env st ⟨.sell, form⟩ = st
    ∧ ∀ st₀ : Ledger, (∀ p ∈ st₀.portfolio, 0 ≤ p.shares) →
        ∀ ops : List Op, ∀ p ∈ (runOps env st₀ ops).portfolio, 0 ≤ p.shares := by
  have herr : submitPosition env .sell form st
      = .error (sellErrMsg form.shares position.shares) := by
    simp only [submitPosition, hfind]
    rw [if_neg hsym, if_neg (by simp [hisin]), if_neg (not_le.mpr hsh),
      if_neg (not_le.mpr hamt), if_neg hdate, if_pos hover]
  refine ⟨herr, ?_, fun st₀ h ops => runOps_nonneg env ops h⟩
  unfold applyOp
  rw [herr]

/-- Witness for `sell_over_holdings_rejected` at a concrete ledger. -/
theorem sell_over_holdings_rejected_witness :
    submitPosition envW .sell (sellFormW 9 900) stW = .error (sellErrMsg 9 5) :=
  (sell_over_holdings_rejected envW (sellFormW 9 900) stW posW
    (by decide) (by decide) (by decide) (by decide) (by decide)
    (by decide) (by decide)).1

/-- C2: a `sell` of `s` shares with `0 < s ≤ shares held` at sale price
per share `p = totalAmount / s` emits a sell transaction carrying
`costBasis = avgPrice` and `realizedGainLoss = (p - avgPrice) * s`,
decreases the position's shares by exactly `s`, and leaves `avgPrice`
(and every other field of the position) unchanged. -/
theorem sell_within_holdings_spec
    (env : Env) (form : PositionForm) (st : Ledger) (position : Position)
    (hsym : jsToUpper (jsTrim form.symbol) ≠ "")
    (hisin : isISIN (jsToUpper (jsTrim form.symbol)) = false)
    (hsh : 0 < form.shares) (hamt : 0 < form.totalAmount) (hdate : form.date ≠ "")
    (hfind : st.portfolio.find? (fun p => p.symbol = form.dialogSymbol) = some position)
    (hle : form.shares ≤ position.shares) :
    ∃ st' tx,
      submitPosition env .sell form st = .ok st'
      ∧ lookupTxs st'.transactions position.symbol
          = lookupTxs st.transactions position.symbol ++ [tx]
      ∧ tx.type = .sell
      ∧ tx.shares = form.shares
      ∧ tx.costBasis = some position.avgPrice
      ∧ tx.realizedGainLoss
          = some ((form.totalAmount / form.shares - position.avgPrice) * form.shares)
      ∧ st'.portfolio.find? (fun p => p.symbol = form.dialogSymbol)
          = some { position with shares := position.shares - form.shares } := by
  have hguard : ¬(position.shares < form.shares) := not_lt.mpr hle
  have hpred : position.symbol = form.dialogSymbol := by
    simpa using List.find?_some hfind
  obtain ⟨l₁, l₂, hdecomp, hnot, hupd⟩ :=
    updateFirst_of_find? (fun p => { p with shares := p.shares - form.shares }) hfind
  refine ⟨⟨updateFirst (fun p => p.symbol = form.dialogSymbol)
            (fun p => { p with shares := p.shares - form.shares }) st.portfolio,
          pushTx st.transactions position.symbol
            ⟨.sell, form.shares, form.totalAmount / form.shares, form.date,
             form.totalAmount, env.assetCurrency position.symbol,
             env.exchangeRate (env.assetCurrency position.symbol), env.now,
             some position.avgPrice,
             some ((form.totalAmount / form.shares - position.avgPrice) * form.shares)⟩⟩,
          ⟨.sell, form.shares, form.totalAmount / form.shares, form.date,
           form.totalAmount, env.assetCurrency position.symbol,
           env.exchangeRate (env.assetCurrency position.symbol), env.now,
           some position.avgPrice,
           some ((form.totalAmount / form.shares - position.avgPrice) * form.shares)⟩,
          ?_, ?_, rfl, rfl, rfl, rfl, ?_⟩
  · simp only [submitPosition, hfind, recordTransaction]
    rw [if_neg hsym, if_neg (by simp [hisin]), if_neg (not_le.mpr hsh),
      if_neg (not_le.mpr hamt), if_neg hdate, if_neg hguard]
    simp
  · exact lookupTxs_pushTx st.transactions position.symbol _
  · rw [hupd]
    exact find?_middle hnot (by simp [hpred])

/-- Witness for `sell_within_holdings_spec` at a concrete ledger. -/
theorem sell_within_holdings_spec_witness :
    ∃ st' tx,
      submitPosition envW .sell (sellFormW 2 400) stW = .ok st'
      ∧ lookupTxs st'.transactions posW.symbol
          = lookupTxs stW.transactions posW.symbol ++ [tx]
      ∧ tx.type = .sell
      ∧ tx.shares = 2
      ∧ tx.costBasis = some posW.avgPrice
      ∧ tx.realizedGainLoss = some ((400 / 2 - posW.avgPrice) * 2)
      ∧ st'.portfolio.find? (fun p => p.symbol = (sellFormW 2 400).dialogSymbol)
          = some { posW with shares := posW.shares - 2 } :=
  sell_within_holdings_spec envW (sellFormW 2 400) stW posW
    (by decide) (by decide) (by decide) (by decide) (by decide)
    (by decide) (by decide)

/-- C3: a buy on an existing position updates
`avgPrice' = (oldShares*oldAvgPrice + newShares*pricePerShare) / (oldShares+newShares)`
and `shares' = oldShares + newShares`; after `add(s₀, t₀)` and any
sequence of valid buys the position's `avgPrice` is the share-weighted
mean of all fills, `(t₀ + Σ tᵢ) / (s₀ + Σ sᵢ)`, which is invariant under
reordering of the buys. -/
theorem buy_weighted_average
    (env : Env) (st : Ledger) (sym date : String) (s₀ t₀ : ℚ)
    (buys buys' : List (ℚ × ℚ))
    (hcanon : jsToUpper (jsTrim sym) = sym) (hne : sym ≠ "")
    (hisin : isISIN sym = false) (hdate : date ≠ "")
    (hnone : st.portfolio.find? (fun p => p.symbol = sym) = none)
    (hs₀ : 0 < s₀) (ht₀ : 0 < t₀)
    (hbuys : ∀ b ∈ buys, 0 < b.1 ∧ 0 < b.2)
    (hperm : buys'.Perm buys) :
    (∀ (st₁ : Ledger) (position : Position) (s t : ℚ), 0 < s → 0 < t →
      st₁.portfolio.find? (fun p => p.symbol = sym) = some position →
      ∃ st₂, submitPosition env .buy (buyForm sym s t date) st₁ = .ok st₂
        ∧ st₂.portfolio.find? (fun p => p.symbol = sym)
            = some { position with
                shares := position.shares + s,
                avgPrice := (position.shares * position.avgPrice + s * (t / s))
                  / (position.shares + s) })
    ∧ (∃ pos', (runOps env st (⟨.add, buyForm sym s₀ t₀ date⟩ ::
          buys.map (fun b => ⟨.buy, buyForm sym b.1 b.2 date⟩))).portfolio.find?
            (fun p => p.symbol = sym) = some pos'
        ∧ pos'.shares = s₀ + (buys.map Prod.fst).sum
        ∧ pos'.avgPrice = (t₀ + (buys.map Prod.snd).sum)
            / (s₀ + (buys.map Prod.fst).sum))
    ∧ (runOps env st (⟨.add, buyForm sym s₀ t₀ date⟩ ::
          buys'.map (fun b => ⟨.buy, buyForm sym b.1 b.2 date⟩))).portfolio.find?
            (fun p => p.symbol = sym)
      = (runOps env st (⟨.add, buyForm sym s₀ t₀ date⟩ ::
          buys.map (fun b => ⟨.buy, buyForm sym b.1 b.2 date⟩))).portfolio.find?
            (fun p => p.symbol = sym) := by
  have hsym : jsToUpper (jsTrim sym) ≠ "" := by rw [hcanon]; exact hne
  have hisin' : isISIN (jsToUpper (jsTrim sym)) = false := by rw [hcanon]; exact hisin
  have hmul : s₀ * (t₀ / s₀) = t₀ := by
    field_simp
  have hrun : ∀ bs : List (ℚ × ℚ), (∀ b ∈ bs, 0 < b.1 ∧ 0 < b.2) →
      (runOps env st (⟨.add, buyForm sym s₀ t₀ date⟩ ::
          bs.map (fun b => ⟨.buy, buyForm sym b.1 b.2 date⟩))).portfolio.find?
            (fun p => p.symbol = sym)
        = some ⟨sym, sym, "Unknown", "", s₀ + (bs.map Prod.fst).sum,
            (t₀ + (bs.map Prod.snd).sum) / (s₀ + (bs.map Prod.fst).sum)⟩ := by
    intro bs hbs
    obtain ⟨st₁, hok, hfind₁⟩ :=
      submitPosition_add_new env st sym date s₀ t₀ hcanon hne hisin hdate hs₀ ht₀ hnone
    have happly : applyOp env st ⟨.add, buyForm sym s₀ t₀ date⟩ = st₁ := by
      unfold applyOp
      rw [hok]
    have hres := runOps_buys env sym date hsym hisin' hdate bs st₁
      ⟨sym, sym, "Unknown", "", s₀, t₀ / s₀⟩ hfind₁ (by simpa using hs₀) hbs
    simp only [runOps, List.foldl_cons, happly] at hres ⊢
    rw [hres]
    simp only [hmul]
  refine ⟨?_, ⟨_, hrun buys hbuys, rfl, rfl⟩, ?_⟩
  · intro st₁ position s t hs ht hfind₁
    obtain ⟨st₂, hok, hfind₂⟩ :=
      submitPosition_buy_step env (buyForm sym s t date) st₁ position
        hsym hisin' hs ht hdate hfind₁
    exact ⟨st₂, hok, by simpa [buyForm] using hfind₂⟩
  · have hbuys' : ∀ b ∈ buys', 0 < b.1 ∧ 0 < b.2 :=
      fun b hb => hbuys b (hperm.mem_iff.mp hb)
    rw [hrun buys hbuys, hrun buys' hbuys',
      (hperm.map Prod.fst).sum_eq, (hperm.map Prod.snd).sum_eq]

/-- Witness for `buy_weighted_average`: `add 2 shares for 100`, then buys
of `(1, 80)` and `(3, 90)`, checked against the reordered list. -/
theorem buy_weighted_average_witness :
    ∃ pos', (runOps envW ⟨[], []⟩ (⟨.add, buyForm "MSFT" 2 100 "2024-05-02"⟩ ::
        [((1 : ℚ), (80 : ℚ)), (3, 90)].map
          (fun b => ⟨.buy, buyForm "MSFT" b.1 b.2 "2024-05-02"⟩))).portfolio.find?
          (fun p => p.symbol = "MSFT") = some pos'
      ∧ pos'.shares = 2 + ([((1 : ℚ), (80 : ℚ)), (3, 90)].map Prod.fst).sum
      ∧ pos'.avgPrice = (100 + ([((1 : ℚ), (80 : ℚ)), (3, 90)].map Prod.snd).sum)
          / (2 + ([((1 : ℚ), (80 : ℚ)), (3, 90)].map Prod.fst).sum) :=
  (buy_weighted_average envW ⟨[], []⟩ "MSFT" "2024-05-02" 2 100
    [(1, 80), (3, 90)] [(3, 90), (1, 80)]
    (by decide) (by decide) (by decide) (by decide) rfl
    (by norm_num) (by norm_num) (by decide) (by decide)).2.1

/-- C4 counterexample: reactivating the inactive `ACME` position (prior
platform `"Degiro"`) with a blank platform input does not retain the
prior platform — the code overwrites it with `"Unknown"`. -/
theorem add_reactivation_platform_not_retained :
    (submitPosition envW .add addFormBlankW stInactiveW).toOption.map
        (fun st => st.portfolio.map (·.platform)) = some ["Unknown"]
      ∧ ("Unknown" : String) ≠ "Degiro" := by
  constructor
  · decide
  · decide

/-- C4 (amended): `add` fails on an existing active position leaving the
ledger unchanged; reactivates an existing inactive position overwriting
`shares`/`avgPrice` (`avgPrice = totalAmount / shares`), retaining the
prior name only when no name is provided while `type` and `platform` are
always overwritten with the submitted values (platform defaulting to
`"Unknown"` when blank); creates a new position otherwise; and every
successful add emits a buy transaction. -/
theorem add_spec
    (env : Env) (form : PositionForm) (st : Ledger)
    (hsym : jsToUpper (jsTrim form.symbol) ≠ "")
    (hisin : isISIN (jsToUpper (jsTrim form.symbol)) = false)
    (hsh : 0 < form.shares) (hamt : 0 < form.totalAmount) (hdate : form.date ≠ "") :
    (∀ existing, st.portfolio.find? (fun p => p.symbol = jsToUpper (jsTrim form.symbol))
        = some existing → 0 < existing.shares →
      submitPosition env .add form st
          = .error (activeExistsMsg (jsToUpper (jsTrim form.symbol)))
        ∧ applyOp env st ⟨.add, form⟩ = st)
    ∧ (∀ existing, st.portfolio.find? (fun p => p.symbol = jsToUpper (jsTrim form.symbol))
        = some existing → existing.shares ≤ 0 →
      ∃ st' tx, submitPosition env .add form st = .ok st'
        ∧ st'.portfolio.find? (fun p => p.symbol = jsToUpper (jsTrim form.symbol))
            = some { existing with
                shares := form.shares
                avgPrice := form.totalAmount / form.shares
                name := if jsTrim form.name = "" then existing.name else jsTrim form.name
                type := form.type
                platform := if jsTrim form.platform = "" then "Unknown"
                  else jsTrim form.platform }
        ∧ lookupTxs st'.transactions (jsToUpper (jsTrim form.symbol))
            = lookupTxs st.transactions (jsToUpper (jsTrim form.symbol)) ++ [tx]
        ∧ tx.type = .buy ∧ tx.totalAmount = form.totalAmount)
    ∧ (st.portfolio.find? (fun p => p.symbol = jsToUpper (jsTrim form.symbol)) = none →
      ∃ st' tx, submitPosition env .add form st = .ok st'
        ∧ st'.portfolio = st.portfolio ++
            [⟨if jsTrim form.name = "" then jsToUpper (jsTrim form.symbol)
                else jsTrim form.name,
              jsToUpper (jsTrim form.symbol),
              if jsTrim form.platform = "" then "Unknown" else jsTrim form.platform,
              form.type, form.shares, form.totalAmount / form.shares⟩]
        ∧ lookupTxs st'.transactions (jsToUpper (jsTrim form.symbol))
            = lookupTxs st.transactions (jsToUpper (jsTrim form.symbol)) ++ [tx]
        ∧ tx.type = .buy ∧ tx.totalAmount = form.totalAmount) := by
  refine ⟨?_, ?_, ?_⟩
  · intro existing hfind hactive
    have herr : submitPosition env .add form st
        = .error (activeExistsMsg (jsToUpper (jsTrim form.symbol))) := by
      simp only [submitPosition, hfind]
      rw [if_neg hsym, if_neg (by simp [hisin]), if_neg (not_le.mpr hsh),
        if_neg (not_le.mpr hamt), if_neg hdate, if_pos hactive]
    refine ⟨herr, ?_⟩
    unfold applyOp
    rw [herr]
  · intro existing hfind hinactive
    have hpred : existing.symbol = jsToUpper (jsTrim form.symbol) := by
      simpa using List.find?_some hfind
    obtain ⟨l₁, l₂, hdecomp, hnot, hupd⟩ :=
      updateFirst_of_find?
        (f := fun p => { p with
          shares := form.shares
          avgPrice := form.totalAmount / form.shares
          name := if jsTrim form.name = "" then p.name else jsTrim form.name
          type := form.type
          platform := if jsTrim form.platform = "" then "Unknown"
            else jsTrim form.platform }) hfind
    refine ⟨⟨updateFirst (fun p => p.symbol = jsToUpper (jsTrim form.symbol))
              (fun p => { p with
                shares := form.shares
                avgPrice := form.totalAmount / form.shares
                name := if jsTrim form.name = "" then p.name else jsTrim form.name
                type := form.type
                platform := if jsTrim form.platform = "" then "Unknown"
                  else jsTrim form.platform }) st.portfolio,
            recordTransaction env st.transactions (jsToUpper (jsTrim form.symbol))
              .buy form.shares (form.totalAmount / form.shares) form.date
              form.totalAmount none none⟩,
          ⟨.buy, form.shares, form.totalAmount / form.shares, form.date,
            form.totalAmount, env.assetCurrency (jsToUpper (jsTrim form.symbol)),
            env.exchangeRate (env.assetCurrency (jsToUpper (jsTrim form.symbol))),
            env.now, none, none⟩, ?_, ?_, ?_, rfl, rfl⟩
    · simp only [submitPosition, hfind]
      rw [if_neg hsym, if_neg (by simp [hisin]), if_neg (not_le.mpr hsh),
        if_neg (not_le.mpr hamt), if_neg hdate, if_neg (not_lt.mpr hinactive)]
    · rw [hupd]
      exact find?_middle hnot (by simp [hpred])
    · simp only [recordTransaction]
      exact lookupTxs_pushTx st.transactions _ _
  · intro hnone
    refine ⟨⟨st.portfolio ++
              [⟨if jsTrim form.name = "" then jsToUpper (jsTrim form.symbol)
                  else jsTrim form.name,
                jsToUpper (jsTrim form.symbol),
                if jsTrim form.platform = "" then "Unknown" else jsTrim form.platform,
                form.type, form.shares, form.totalAmount / form.shares⟩],
            recordTransaction env st.transactions (jsToUpper (jsTrim form.symbol))
              .buy form.shares (form.totalAmount / form.shares) form.date
              form.totalAmount none none⟩,
          ⟨.buy, form.shares, form.totalAmount / form.shares, form.date,
            form.totalAmount, env.assetCurrency (jsToUpper (jsTrim form.symbol)),
            env.exchangeRate (env.assetCurrency (jsToUpper (jsTrim form.symbol))),
            env.now, none, none⟩, ?_, rfl, ?_, rfl, rfl⟩
    · simp only [submitPosition, hnone]
      rw [if_neg hsym, if_neg (by simp [hisin]), if_neg (not_le.mpr hsh),
        if_neg (not_le.mpr hamt), if_neg hdate]
    · simp only [recordTransaction]
      exact lookupTxs_pushTx st.transactions _ _

/-- Witness for `add_spec`: reactivating the inactive `ACME` position. -/
theorem add_spec_witness :
    ∃ st' tx, submitPosition envW .add addFormBlankW stInactiveW = .ok st'
      ∧ st'.portfolio.find?
          (fun p => p.symbol = jsToUpper (jsTrim addFormBlankW.symbol))
          = some { posInactiveW with
              shares := addFormBlankW.shares
              avgPrice := addFormBlankW.totalAmount / addFormBlankW.shares
              name := if jsTrim addFormBlankW.name = "" then posInactiveW.name
                else jsTrim addFormBlankW.name
              type := addFormBlankW.type
              platform := if jsTrim addFormBlankW.platform = "" then "Unknown"
                else jsTrim addFormBlankW.platform }
      ∧ lookupTxs st'.transactions (jsToUpper (jsTrim addFormBlankW.symbol))
          = lookupTxs stInactiveW.transactions (jsToUpper (jsTrim addFormBlankW.symbol))
            ++ [tx]
      ∧ tx.type = .buy ∧ tx.totalAmount = addFormBlankW.totalAmount :=
  (add_spec envW addFormBlankW stInactiveW
      (by decide) (by decide) (by decide) (by decide) (by decide)).2.1
    posInactiveW (by decide) (by decide)

/-- C6: `mergeSnapshots existing incoming` is a permutation of `existing`
plus exactly the incoming snapshots whose timestamp does not occur in
`existing` (existing wins every collision), it is sorted ascending by
timestamp, and it is idempotent:
`merge (merge A B) B = merge A B`. -/
theorem mergeSnapshots_spec (A B : List Snapshot) :
    ((B.map (·.timestamp)).Nodup →
      (mergeSnapshots A B).Perm
        (A ++ B.filter (fun s => s.timestamp ∉ A.map (·.timestamp))))
    ∧ (mergeSnapshots A B).Pairwise (fun a b => a.timestamp ≤ b.timestamp)
    ∧ mergeSnapshots (mergeSnapshots A B) B = mergeSnapshots A B := by
  refine ⟨?_, ?_, ?_⟩
  · intro hnd
    show ((A ++ addIncoming B (A.map (·.timestamp))).mergeSort snapLE).Perm _
    rw [addIncoming_eq_filter B _ hnd]
    exact List.mergeSort_perm _ snapLE
  · have := List.sorted_mergeSort snapLE_trans snapLE_total
      (A ++ addIncoming B (A.map (·.timestamp)))
    refine List.Pairwise.imp ?_ this
    intro a b h
    simpa [snapLE] using h
  · have hsorted : (mergeSnapshots A B).Pairwise (fun a b => snapLE a b = true) :=
      List.sorted_mergeSort snapLE_trans snapLE_total _
    have hsub : ∀ s ∈ B, s.timestamp ∈ (mergeSnapshots A B).map (·.timestamp) := by
      intro s hs
      have hperm := (List.mergeSort_perm
        (A ++ addIncoming B (A.map (·.timestamp))) snapLE).map (·.timestamp)
      show s.timestamp ∈
        ((A ++ addIncoming B (A.map (·.timestamp))).mergeSort snapLE).map (·.timestamp)
      rw [hperm.mem_iff]
      rcases ts_mem_addIncoming B (A.map (·.timestamp)) s hs with h | h
      · simpa using Or.inl h
      · simpa using Or.inr h
    show ((mergeSnapshots A B) ++ addIncoming B ((mergeSnapshots A B).map (·.timestamp))).mergeSort snapLE = mergeSnapshots A B
    rw [addIncoming_eq_nil B _ hsub, List.append_nil,
      List.mergeSort_of_sorted hsorted]

/-- Witness for `mergeSnapshots_spec` on concrete snapshot lists with a
timestamp collision. -/
theorem mergeSnapshots_spec_witness :
    (mergeSnapshots [⟨5, 1, 1, 1, 0⟩, ⟨1, 2, 2, 1, 0⟩]
        [⟨5, 3, 3, 1, 0⟩, ⟨9, 4, 4, 1, 0⟩]).Perm
      ([⟨5, 1, 1, 1, 0⟩, ⟨1, 2, 2, 1, 0⟩] ++
        [⟨5, 3, 3, 1, 0⟩, ⟨9, 4, 4, 1, 0⟩].filter
          (fun s => s.timestamp ∉
            [(⟨5, 1, 1, 1, 0⟩ : Snapshot), ⟨1, 2, 2, 1, 0⟩].map (·.timestamp)))
    ∧ mergeSnapshots
        (mergeSnapshots [⟨5, 1, 1, 1, 0⟩, ⟨1, 2, 2, 1, 0⟩]
          [⟨5, 3, 3, 1, 0⟩, ⟨9, 4, 4, 1, 0⟩])
        [⟨5, 3, 3, 1, 0⟩, ⟨9, 4, 4, 1, 0⟩]
      = mergeSnapshots [⟨5, 1, 1, 1, 0⟩, ⟨1, 2, 2, 1, 0⟩]
          [⟨5, 3, 3, 1, 0⟩, ⟨9, 4, 4, 1, 0⟩] :=
  ⟨(mergeSnapshots_spec [⟨5, 1, 1, 1, 0⟩, ⟨1, 2, 2, 1, 0⟩]
      [⟨5, 3, 3, 1, 0⟩, ⟨9, 4, 4, 1, 0⟩]).1 (by decide),
   (mergeSnapshots_spec [⟨5, 1, 1, 1, 0⟩, ⟨1, 2, 2, 1, 0⟩]
      [⟨5, 3, 3, 1, 0⟩, ⟨9, 4, 4, 1, 0⟩]).2.2⟩

/-- C7: `buildSnapshot`'s `totalInvested` is the sum of
`shares * avgPrice`; `totalMarketValue` uses `shares * currentPrice` for
positions whose symbol has a (truthy) quote in the price map and falls
back to `shares * avgPrice` otherwise, so with an empty price map
`totalMarketValue = totalInvested`; and `pricesAvailable` is the number
of distinct symbols in the price map, independent of the holdings. -/
theorem buildSnapshot_spec
    (portfolio : List Position) (m : PriceMap) (ts : ℕ)
    (hkeys : (m.map Prod.fst).Nodup) :
    (buildSnapshot portfolio m ts).totalInvested = (portfolio.map investedOf).sum
    ∧ (buildSnapshot portfolio m ts).totalMarketValue
        = (portfolio.map (marketValueOf m)).sum
    ∧ (buildSnapshot portfolio [] ts).totalMarketValue
        = (buildSnapshot portfolio [] ts).totalInvested
    ∧ (buildSnapshot portfolio m ts).pricesAvailable
        = ((m.map Prod.fst).dedup).length
    ∧ (buildSnapshot portfolio m ts).pricesAvailable
        = (buildSnapshot [] m ts).pricesAvailable := by
  refine ⟨?_, ?_, ?_, ?_, rfl⟩
  · simp [buildSnapshot, foldl_totalsStep]
  · simp [buildSnapshot, foldl_totalsStep]
  · have hmv : marketValueOf [] = investedOf := by
      funext p
      rfl
    simp [buildSnapshot, foldl_totalsStep, hmv]
  · simp [buildSnapshot, List.Nodup.dedup hkeys]

/-- Witness for `buildSnapshot_spec` on a concrete portfolio/price map. -/
theorem buildSnapshot_spec_witness :
    (buildSnapshot [posW] [("AAPL", 120)] 7).totalInvested
        = ([posW].map investedOf).sum
    ∧ (buildSnapshot [posW] [("AAPL", 120)] 7).totalMarketValue
        = ([posW].map (marketValueOf [("AAPL", 120)])).sum
    ∧ (buildSnapshot [posW] [] 7).totalMarketValue
        = (buildSnapshot [posW] [] 7).totalInvested
    ∧ (buildSnapshot [posW] [("AAPL", 120)] 7).pricesAvailable
        = (([("AAPL", (120 : ℚ))].map Prod.fst).dedup).length
    ∧ (buildSnapshot [posW] [("AAPL", 120)] 7).pricesAvailable
        = (buildSnapshot [] [("AAPL", 120)] 7).pricesAvailable :=
  buildSnapshot_spec [posW] [("AAPL", 120)] 7 (by decide)

/-- C10: a symbol mapped to `0` in the price map behaves exactly like a
missing quote in both `calculatePortfolioTotals` and `buildSnapshot`
(cost-basis fallback, not counted in `positionsWithPrices`), yet the
symbol still counts toward `buildSnapshot`'s `pricesAvailable`. -/
theorem zero_price_like_missing
    (portfolio : List Position) (m : PriceMap) (sym : String) (ts : ℕ)
    (h0 : lookupPrice m sym = some 0)
    (hkeys : (m.map Prod.fst).Nodup) :
    calculatePortfolioTotals portfolio m
        = calculatePortfolioTotals portfolio (m.filter (fun kv => !(kv.1 = sym)))
    ∧ (buildSnapshot portfolio m ts).totalInvested
        = (buildSnapshot portfolio (m.filter (fun kv => !(kv.1 = sym))) ts).totalInvested
    ∧ (buildSnapshot portfolio m ts).totalMarketValue
        = (buildSnapshot portfolio (m.filter (fun kv => !(kv.1 = sym))) ts).totalMarketValue
    ∧ (∀ p ∈ portfolio, p.symbol = sym →
        marketValueOf m p = investedOf p ∧ hasTruthyPrice m p = false)
    ∧ (buildSnapshot portfolio m ts).pricesAvailable
        = (buildSnapshot portfolio (m.filter (fun kv => !(kv.1 = sym))) ts).pricesAvailable
          + 1 := by
  have htp := truthyPrice_filter_zero m sym h0
  have hstep : totalsStep (m.filter (fun kv => !(kv.1 = sym))) = totalsStep m := by
    funext acc p
    simp only [totalsStep, htp p.symbol]
  have htpm : truthyPrice m sym = none := by
    rw [truthyPrice, h0]
    simp
  refine ⟨?_, ?_, ?_, ?_, ?_⟩
  · simp only [calculatePortfolioTotals, hstep]
  · simp only [buildSnapshot, hstep]
  · simp only [buildSnapshot, hstep]
  · intro p _ hp
    constructor
    · rw [marketValueOf, hp, htpm]
      rfl
    · rw [hasTruthyPrice, hp, htpm]
      rfl
  · simp only [buildSnapshot]
    exact length_filter_out_key m sym hkeys (by rw [h0]; exact Option.some_ne_none _)

/-- Witness for `zero_price_like_missing` with `AAPL` quoted `0`. -/
theorem zero_price_like_missing_witness :
    calculatePortfolioTotals [posW] [("AAPL", 0), ("TSLA", 50)]
        = calculatePortfolioTotals [posW]
            ([("AAPL", (0 : ℚ)), ("TSLA", 50)].filter (fun kv => !(kv.1 = "AAPL")))
    ∧ (buildSnapshot [posW] [("AAPL", 0), ("TSLA", 50)] 3).totalInvested
        = (buildSnapshot [posW]
            ([("AAPL", (0 : ℚ)), ("TSLA", 50)].filter (fun kv => !(kv.1 = "AAPL"))) 3).totalInvested
    ∧ (buildSnapshot [posW] [("AAPL", 0), ("TSLA", 50)] 3).totalMarketValue
        = (buildSnapshot [posW]
            ([("AAPL", (0 : ℚ)), ("TSLA", 50)].filter (fun kv => !(kv.1 = "AAPL"))) 3).totalMarketValue
    ∧ (∀ p ∈ [posW], p.symbol = "AAPL" →
        marketValueOf [("AAPL", 0), ("TSLA", 50)] p = investedOf p
          ∧ hasTruthyPrice [("AAPL", 0), ("TSLA", 50)] p = false)
    ∧ (buildSnapshot [posW] [("AAPL", 0), ("TSLA", 50)] 3).pricesAvailable
        = (buildSnapshot [posW]
            ([("AAPL", (0 : ℚ)), ("TSLA", 50)].filter (fun kv => !(kv.1 = "AAPL"))) 3).pricesAvailable
          + 1 :=
  zero_price_like_missing [posW] [("AAPL", 0), ("TSLA", 50)] "AAPL" 3
    (by decide) (by decide)

/-- C9: `buildAlternativeSymbols("LVMH", "LVMH Moet Hennessy")` has no
duplicate entries and contains all 12 regional exchange-suffix variants
of the bare symbol plus the curated name mappings `"MC.PA"` and
`"LVMUY"`. -/
theorem buildAlternativeSymbols_LVMH :
    (buildAlternativeSymbols "LVMH" "LVMH Moet Hennessy").Nodup
    ∧ ∀ s ∈ ["LVMH.PA", "LVMH.L", "LVMH.DE", "LVMH.MC", "LVMH.SW", "LVMH.AS",
        "LVMH.MI", "LVMH.BR", "LVMH.HE", "LVMH.ST", "LVMH.OL", "LVMH.CO",
        "MC.PA", "LVMUY"],
      s ∈ buildAlternativeSymbols "LVMH" "LVMH Moet Hennessy" := by
  constructor
  · decide
  · decide

/-- C5: no position whose symbol is still ISIN-shaped survives the
import, and every row whose identifier is ISIN-shaped and unresolved
after all resolver tiers is excluded, with the batch error naming the
unresolved ISINs present among the errors. -/
theorem import_excludes_unresolved_isins
    (items : List (Position × Option String)) :
    (∀ p ∈ (importExclusion items).1, isISIN p.symbol = false)
    ∧ (∀ it ∈ items, it.2 = none → isISIN it.1.symbol = true →
        it.1.symbol ∈ unresolvedSyms items
        ∧ unresolvedErrMsg (unresolvedSyms items) ∈ (importExclusion items).2
        ∧ ∀ p ∈ (importExclusion items).1, p.symbol ≠ it.1.symbol) := by
  have hres : ∀ p ∈ (importExclusion items).1, isISIN p.symbol = false := by
    intro p hp
    have hp' : p ∈ (if unresolvedSyms items ≠ [] then
        (items.map applyResolution).filter (fun q => !isISIN q.symbol)
      else items.map applyResolution).filter (fun q => !isISIN q.symbol) := hp
    have := List.of_mem_filter hp'
    simpa using this
  refine ⟨hres, ?_⟩
  intro it hit h2 h3
  have hmem : it.1.symbol ∈ unresolvedSyms items := by
    unfold unresolvedSyms
    refine List.mem_map_of_mem _ ?_
    refine List.mem_filter.mpr ⟨hit, ?_⟩
    simp [h2, h3]
  have hne : unresolvedSyms items ≠ [] := List.ne_nil_of_mem hmem
  refine ⟨hmem, ?_, ?_⟩
  · simp only [importExclusion, if_pos hne]
    exact List.mem_append.mpr (Or.inl (List.mem_singleton.mpr rfl))
  · intro p hp heq
    have := hres p hp
    rw [heq, h3] at this
    cases this

/-- Witness for `import_excludes_unresolved_isins` at `itemsW`. -/
theorem import_excludes_unresolved_isins_witness :
    "US0378331005" ∈ unresolvedSyms itemsW
    ∧ unresolvedErrMsg (unresolvedSyms itemsW) ∈ (importExclusion itemsW).2 :=
  let h := (import_excludes_unresolved_isins itemsW).2
    (⟨"Apple", "US0378331005", "X", "Stock", 1, 10⟩, none)
    (by decide) rfl (by decide)
  ⟨h.1, h.2.1⟩

unseal Rat.add Rat.sub Rat.mul Rat.inv in
/-- C8: parsing the single tab-separated line `AAPL\t10\t150` yields
exactly one position with symbol `"AAPL"`, `shares = 10`,
`avgPrice = 150`, and empty error and warning lists. -/
theorem parse_simple_row :
    parsePortfolioText "AAPL\t10\t150"
      = ⟨[⟨"AAPL", "AAPL", "Unknown", "Stock", 10, 150, false, none⟩], [], []⟩ := by
  decide

end AIT
